import Mathlib

/-! # TikTok_Monitor dashboard (`frontend/js/app.js`): workspace, hot list and trend chart

A shallow embedding of the browser-side logic of `frontend/js/app.js`.

* JavaScript strings are modelled by Lean `String`s; `===` and `Array.prototype.includes`
  on strings are string equality.
* The module-level variable `compareWords` is passed explicitly: every operation takes
  the current array and returns the array after the call.
* Timestamps (`Date.now()`, `new Date(x).getTime()`) are integers of milliseconds; all
  products and differences used by the code stay far below `2 ^ 53`, so the IEEE
  double arithmetic of the source is exact and is modelled by `Int` / `ℚ` arithmetic.
  The one quotient that is rounded up to an integer, `selectedHours / 24` of line 331,
  is modelled with the binary64 rounding of the division.
-/

namespace TikTokMonitor

/-! ## Strings -/

/-- The code points removed by `String.prototype.trim`: ECMAScript `WhiteSpace`
(TAB, VT, FF, ZWNBSP and the Unicode `Zs` category) and `LineTerminator`
(LF, CR, LS, PS). -/
def isJsWhiteSpace (c : Char) : Bool :=
  let n := c.toNat
  n = 0x09 || n = 0x0A || n = 0x0B || n = 0x0C || n = 0x0D || n = 0x20 ||
  n = 0xA0 || n = 0x1680 || (0x2000 ≤ n && n ≤ 0x200A) ||
  n = 0x2028 || n = 0x2029 || n = 0x202F || n = 0x205F || n = 0x3000 || n = 0xFEFF

/-- `word.trim()`: strip white space from both ends. -/
def jsTrim (s : String) : String :=
  ⟨((s.data.dropWhile isJsWhiteSpace).reverse.dropWhile isJsWhiteSpace).reverse⟩

/-! ## Workspace store (`compareWords`) -/

/-- `addWord(word)`, lines 267-282: the value of `compareWords` after the call.

```
if (!word) return;
word = word.trim();
if (compareWords.includes(word)) { showToast(...); return; }
if (compareWords.length >= 5)    { showToast(...); return; }
compareWords.push(word);
```
-/
def addWord (compareWords : List String) (word : String) : List String :=
  if word = "" then compareWords
  else
    let word := jsTrim word
    if word ∈ compareWords then compareWords
    else if compareWords.length ≥ 5 then compareWords
    else compareWords ++ [word]

/-- `removeWord(word)`, lines 284-294:
`compareWords = compareWords.filter(w => w !== word)`. -/
def removeWord (compareWords : List String) (word : String) : List String :=
  compareWords.filter (fun w => w ≠ word)

/-- `quickPreview(word)`, lines 244-249: `compareWords = [word]`. -/
def quickPreview (_compareWords : List String) (word : String) : List String :=
  [word]

/-- One call made on the workspace by a user action. -/
inductive WorkspaceCall where
  | addWord (word : String)
  | removeWord (word : String)
  | quickPreview (word : String)
  deriving Repr, DecidableEq

/-- The effect of one call on `compareWords`. -/
def WorkspaceCall.run (compareWords : List String) : WorkspaceCall → List String
  | .addWord w => TikTokMonitor.addWord compareWords w
  | .removeWord w => TikTokMonitor.removeWord compareWords w
  | .quickPreview w => TikTokMonitor.quickPreview compareWords w

/-- The workspace after a sequence of calls made from the initial `let compareWords = []`. -/
def runCalls (calls : List WorkspaceCall) : List String :=
  calls.foldl WorkspaceCall.run []

/-! ## Hot list rendering (`renderHotList`) -/

/-- An element of the `data` array of `GET /api/hot`. -/
structure HotWordItem where
  word : String
  hot_value : Nat
  tag : Option String
  deriving Repr, DecidableEq

/-- One pass of `str.replace(/c/g, rep)` for a single character `c`. -/
def replaceAll (c : Char) (rep : String) (str : String) : String :=
  ⟨str.data.flatMap (fun x => if x = c then rep.data else [x])⟩

/-- `escapeHtml(str)`, lines 529-532. -/
def escapeHtml (str : String) : String :=
  if str = "" then ""
  else replaceAll '>' "&gt;" (replaceAll '<' "&lt;" (replaceAll '&' "&amp;" str))

/-- One `<div class="hot-item">` produced by the `rankedItems.map((item, idx) => ...)`
template of lines 173-191. `hotValue` is the number handed to `formatHot`. -/
structure RankedRow where
  dataWord : String
  rankNum : Nat
  title : String
  hotTag : Bool
  hotValue : Nat
  deriving Repr, DecidableEq

/-- One `<div class="new-item">` of the template of lines 197-208. -/
structure NewRow where
  dataWord : String
  title : String
  deriving Repr, DecidableEq

/-- The content given to `els.hotList.innerHTML`: the "暂无数据" placeholder or the rows. -/
inductive HotListHtml where
  | noData
  | rows (rows : List RankedRow)
  deriving Repr, DecidableEq

/-- What `renderHotList` computes and writes to the page. -/
structure HotListView where
  rankedItems : List HotWordItem
  newItems : List HotWordItem
  hotList : HotListHtml
  newSectionShown : Bool
  newList : List NewRow
  deriving Repr, DecidableEq

/-- The row template of the ranked list, applied to `(item, idx)`. -/
def rankedRow (idx : Nat) (item : HotWordItem) : RankedRow :=
  { dataWord := escapeHtml item.word
    rankNum := idx + 1
    title := escapeHtml item.word
    hotTag := item.tag = some "热" || item.tag = some "爆"
    hotValue := item.hot_value }

/-- The tile template of the new-entries grid. -/
def newRow (item : HotWordItem) : NewRow :=
  { dataWord := escapeHtml item.word, title := escapeHtml item.word }

/-- `renderHotList(list)`, lines 165-215. -/
def renderHotList (list : List HotWordItem) : HotListView :=
  let rankedItems := list.filter (fun item => item.hot_value > 0)
  let newItems := list.filter (fun item => item.hot_value = 0)
  { rankedItems := rankedItems
    newItems := newItems
    hotList :=
      if rankedItems.length = 0 ∧ newItems.length = 0 then .noData
      else .rows (rankedItems.mapIdx rankedRow)
    newSectionShown := newItems.length > 0
    newList := if newItems.length > 0 then newItems.map newRow else [] }

/-! ## Trend aggregation (`updateChart`) -/

/-- An element of a `trend` or `history` array. `timeMs` is the value of
`new Date(d.time || d.timestamp).getTime()`; `none` stands for `NaN` (no parsable time). -/
structure TrendPoint where
  timeMs : Option Int
  hot_value : Int
  deriving Repr, DecidableEq

/-- How `await fetch(url)` followed by `await res.json()` ends. -/
inductive Fetched (α : Type) where
  /-- The promise returned by `fetch` rejects. -/
  | rejected
  /-- The promise returned by `res.json()` rejects: the body does not parse. -/
  | badJson
  /-- The body parsed to `body`. -/
  | json (body : α)
  deriving Repr, DecidableEq

/-- The parsed body of `GET /api/trend/{word}?hours=N`; `success` is the truthiness of
`j1.success`, `trend = none` means that the field is absent. -/
structure TrendBody where
  success : Bool
  trend : Option (List TrendPoint)
  deriving Repr, DecidableEq

/-- The parsed body of `GET /api/history/{word}?days=N`. -/
structure HistoryBody where
  success : Bool
  history : Option (List TrendPoint)
  deriving Repr, DecidableEq

/-- A request sent to the backend by `updateChart`. -/
inductive Request where
  | trend (word : String) (hours : Int)
  | history (word : String) (days : Int)
  deriving Repr, DecidableEq

/-- What the outside world answers while one word is resolved: the outcome of the trend
request, the outcome of the history request (used only if that request is sent) and the
value of `Date.now()` read at line 338. -/
structure WordEnv where
  trendResp : Fetched TrendBody
  historyResp : Fetched HistoryBody
  now : Int
  deriving Repr, DecidableEq

/-- The outcome of the `try` block of one loop iteration: the requests sent, and the
filtered `data`, or `none` when an exception reached the `catch` of line 348. -/
structure WordResult where
  requests : List Request
  data : Option (List TrendPoint)
  deriving Repr, DecidableEq

/-- The number of halvings that bring `n` below 2, at most `fuel` of them. -/
def log2Aux : Nat → Nat → Nat
  | 0, _ => 0
  | fuel + 1, n => if n < 2 then 0 else log2Aux fuel (n / 2) + 1

/-- The exponent `e` with `2 ^ e ≤ n < 2 ^ (e + 1)`, for `n ≥ 1`. -/
def floorLog2 (n : Nat) : Nat := log2Aux n n

/-- The number of doublings of `a` needed to reach `b`, at most `fuel` of them. -/
def doublingsAux : Nat → Nat → Nat → Nat
  | 0, _, _ => 0
  | fuel + 1, a, b => if b ≤ a then 0 else doublingsAux fuel (2 * a) b + 1

/-- The binary exponent of the quotient of two positive integers: the `e` with
`2 ^ e ≤ a / b < 2 ^ (e + 1)`, negative when `a < b`. -/
def quotientExponent (a b : Nat) : Int :=
  if b ≤ a then (floorLog2 (a / b) : Int) else -(doublingsAux b a b : Int)

/-- The integer nearest to `n / d`, the even one at a tie (IEEE 754 roundTiesToEven). -/
def roundHalfEven (n d : Nat) : Nat :=
  let f := n / d
  let r := n % d
  if 2 * r < d then f
  else if d < 2 * r then f + 1
  else if f % 2 = 0 then f else f + 1

/-- The Number `a / b` for positive integers `a`, `b` held exactly by their doubles: the
binary64 value nearest to the quotient, as a fraction `(numerator, denominator)` whose
denominator is a power of two. With `e` the binary exponent of the quotient, the 53-bit
significand is the quotient scaled by `2 ^ (52 - e)` and rounded, ties to even.
(No overflow or underflow occurs for `b = 24` and `a < 2 ^ 1024`.) -/
def doubleQuotient (a b : Nat) : Nat × Nat :=
  let e := quotientExponent a b
  if e ≤ 52 then
    let scale := 2 ^ (52 - e).toNat
    (roundHalfEven (a * scale) b, scale)
  else
    let ulp := 2 ^ (e - 52).toNat
    (roundHalfEven a (b * ulp) * ulp, 1)

/-- `Math.ceil` of a non-negative fraction. -/
def ceilOfFraction (q : Nat × Nat) : Nat := (q.1 + q.2 - 1) / q.2

/-- `Math.floor` of a non-negative fraction. -/
def floorOfFraction (q : Nat × Nat) : Nat := q.1 / q.2

/-- `Math.ceil(a / b)` as JavaScript computes it: the division is the binary64 division
of the Numbers `a` and `b`, and `Math.ceil` is exact on the rounded quotient. For a
negative `a` the quotient is the negative of the one of `-a` (rounding is symmetric). -/
def mathCeilOfQuotient (a : Int) (b : Nat) : Int :=
  if 0 < a then Int.ofNat (ceilOfFraction (doubleQuotient a.toNat b))
  else if a < 0 then Int.neg (Int.ofNat (floorOfFraction (doubleQuotient (-a).toNat b)))
  else 0

/-- Line 331: `Math.max(1, Math.ceil(selectedHours / 24))`; `selectedHours` is the
integer held by the Number variable. -/
def historyDays (selectedHours : Int) : Int :=
  max 1 (mathCeilOfQuotient selectedHours 24)

/-- Lines 338-342: the client-side filter.

```
const cutoffTime = Date.now() - (selectedHours * 60 * 60 * 1000);
data = data.filter(d => new Date(d.time || d.timestamp).getTime() >= cutoffTime);
```
A comparison with `NaN` is false. -/
def postFilter (selectedHours now : Int) (data : List TrendPoint) : List TrendPoint :=
  let cutoffTime := now - selectedHours * 60 * 60 * 1000
  data.filter (fun d =>
    match d.timeMs with
    | some itemTime => decide (itemTime ≥ cutoffTime)
    | none => false)

/-- The `else` branch of lines 329-335 followed by the filter: the history request is
sent; a rejected fetch, an unparsable body, or `data = j2.history` being `undefined`
(`data.filter` is then a `TypeError`) end in the `catch`. -/
def historyFallback (selectedHours : Int) (word : String) (env : WordEnv) : WordResult :=
  let days := historyDays selectedHours
  let r2 := Request.history word days
  match env.historyResp with
  | .rejected => ⟨[r2], none⟩
  | .badJson => ⟨[r2], none⟩
  | .json j2 =>
    if j2.success then
      match j2.history with
      | none => ⟨[r2], none⟩
      | some history => ⟨[r2], some (postFilter selectedHours env.now history)⟩
    else ⟨[r2], some (postFilter selectedHours env.now [])⟩

/-- The `try` block of lines 322-347 up to the filter, for one word.
Reading `j1.trend.length` when `j1.success` is truthy and `trend` is absent is a
`TypeError`. -/
def resolveWord (selectedHours : Int) (word : String) (env : WordEnv) : WordResult :=
  let r1 := Request.trend word selectedHours
  match env.trendResp with
  | .rejected => ⟨[r1], none⟩
  | .badJson => ⟨[r1], none⟩
  | .json j1 =>
    if j1.success then
      match j1.trend with
      | none => ⟨[r1], none⟩
      | some trend =>
        if trend.length > 0 then ⟨[r1], some (postFilter selectedHours env.now trend)⟩
        else
          let r := historyFallback selectedHours word env
          ⟨r1 :: r.requests, r.data⟩
    else
      let r := historyFallback selectedHours word env
      ⟨r1 :: r.requests, r.data⟩

/-- The value of a property read `dataMap[word]`, as far as line 354-357 can tell:
a falsy value (`undefined`, `0`), an array of points, or another truthy value
(a function, a plain object, a non-zero number) which has no callable `map`. -/
inductive JsValue where
  | falsy
  | array (data : List TrendPoint)
  | other
  deriving Repr, DecidableEq

/-- The string-keyed properties of `Object.prototype` (ECMA-262 §20.1.3 and Annex B.2.2),
which every object literal `{}` inherits. -/
def objectPrototypeKeys : List String :=
  ["constructor", "hasOwnProperty", "isPrototypeOf", "propertyIsEnumerable",
   "toLocaleString", "toString", "valueOf", "__proto__",
   "__defineGetter__", "__defineSetter__", "__lookupGetter__", "__lookupSetter__"]

/-- The string-keyed properties of `Array.prototype` (ECMA-262 §23.1.3), inherited by
`dataMap` once an array has become its prototype. -/
def arrayPrototypeKeys : List String :=
  ["at", "concat", "copyWithin", "entries", "every", "fill", "filter", "find",
   "findIndex", "findLast", "findLastIndex", "flat", "flatMap", "forEach", "includes",
   "indexOf", "join", "keys", "lastIndexOf", "map", "pop", "push", "reduce",
   "reduceRight", "reverse", "shift", "slice", "some", "sort", "splice",
   "toReversed", "toSorted", "toSpliced", "unshift", "values", "with"]

/-- The object `const dataMap = {}` of line 317: its own properties (latest first) and,
once `dataMap['__proto__'] = data` has run the inherited setter, the array that became
its prototype. -/
structure DataMap where
  own : List (String × List TrendPoint)
  proto : Option (List TrendPoint)
  deriving Repr, DecidableEq

/-- `const dataMap = {}`. -/
def DataMap.empty : DataMap := ⟨[], none⟩

/-- `dataMap[word] = data` (line 345). -/
def DataMap.set (m : DataMap) (word : String) (data : List TrendPoint) : DataMap :=
  if word = "__proto__" then { m with proto := some data }
  else { m with own := (word, data) :: m.own }

/-- `dataMap[word]` (line 354): an own property, else the prototype chain
`[array set through __proto__] → Array.prototype → Object.prototype`. -/
def DataMap.get (m : DataMap) (word : String) : JsValue :=
  match m.own.lookup word with
  | some data => .array data
  | none =>
    match m.proto with
    | none => if word ∈ objectPrototypeKeys then .other else .falsy
    | some arr =>
      if word = "__proto__" then .array arr
      else if word = "length" then (if arr.length = 0 then .falsy else .other)
      else if (List.range arr.length).any (fun i => toString i = word) then .other
      else if word ∈ arrayPrototypeKeys ∨ word ∈ objectPrototypeKeys then .other
      else .falsy

/-- Line 14. -/
def PALETTE : List String :=
  ["#6366f1", "#ec4899", "#10b981", "#f59e0b", "#06b6d4", "#8b5cf6"]

/-- One element of `seriesData` (lines 362-372); the constant style fields are left out.
`data` holds the `[timestamp, d.hot_value]` pairs. -/
structure Series where
  name : String
  data : List (Option Int × Int)
  color : String
  deriving Repr, DecidableEq

/-- One iteration of the loop of lines 321-351 on the pair `(dataMap, requests sent)`. -/
def fetchStep (selectedHours : Int) (env : String → WordEnv)
    (st : DataMap × List Request) (word : String) : DataMap × List Request :=
  let r := resolveWord selectedHours word (env word)
  let dataMap :=
    match r.data with
    | some data => if data.length > 0 then st.1.set word data else st.1
    | none => st.1
  (dataMap, st.2 ++ r.requests)

/-- The loop `for (const word of compareWords)` of lines 321-351. -/
def fetchLoop (selectedHours : Int) (env : String → WordEnv) (compareWords : List String) :
    DataMap × List Request :=
  compareWords.foldl (fetchStep selectedHours env) (DataMap.empty, [])

/-- The callback of `compareWords.forEach((word, idx) => ...)`, lines 353-373;
`none` when `rawData.map` is not callable and the callback throws a `TypeError`. -/
def seriesOf (dataMap : DataMap) (word : String) (idx : Nat) : Option Series :=
  let color := PALETTE.getD (idx % PALETTE.length) ""
  match dataMap.get word with
  | .other => none
  | .falsy => some { name := word, data := [], color := color }
  | .array rawData =>
    some { name := word, data := rawData.map (fun d => (d.timeMs, d.hot_value)), color := color }

/-- The `forEach` of lines 353-373 from index `idx` on: `seriesData` when every callback
returns, `none` as soon as one throws (the exception leaves `updateChart`). -/
def buildSeries (dataMap : DataMap) : Nat → List String → Option (List Series)
  | _, [] => some []
  | idx, word :: rest =>
    match seriesOf dataMap word idx with
    | none => none
    | some s =>
      match buildSeries dataMap (idx + 1) rest with
      | none => none
      | some ss => some (s :: ss)

/-- One run of `updateChart`: the requests sent and the argument of the call
`renderEChart(seriesData)`, `none` if that call is not reached. -/
structure ChartPass where
  requests : List Request
  rendered : Option (List Series)
  deriving Repr, DecidableEq

/-- `updateChart()`, lines 311-376. `env word` is what the outside world answers while
`word` is resolved; the workspace holds distinct words, so each is resolved once. -/
def updateChart (compareWords : List String) (selectedHours : Int)
    (env : String → WordEnv) : ChartPass :=
  if compareWords.length = 0 then ⟨[], none⟩
  else
    let st := fetchLoop selectedHours env compareWords
    ⟨st.2, buildSeries st.1 0 compareWords⟩

/-! ## Chart configuration (`renderEChart`) -/

/-- The loop of lines 385-392 over the points of all series, on the pair
`(dataMinTime, dataMaxTime)`; `none` stands for the initial `Infinity` resp. `-Infinity`.
A comparison with a `NaN` timestamp is false and changes nothing. -/
def rangeStep (acc : Option Int × Option Int) (d : Option Int × Int) :
    Option Int × Option Int :=
  match d.1 with
  | none => acc
  | some t =>
    let dataMinTime :=
      match acc.1 with
      | none => some t
      | some lo => if t < lo then some t else some lo
    let dataMaxTime :=
      match acc.2 with
      | none => some t
      | some hi => if t > hi then some t else some hi
    (dataMinTime, dataMaxTime)

/-- `(dataMinTime, dataMaxTime)` after `series.forEach(s => s.data.forEach(...))`. -/
def dataRange (series : List Series) : Option Int × Option Int :=
  series.foldl (fun acc s => s.data.foldl rangeStep acc) (none, none)

/-- Lines 394-402: `timeSpanHours > 24`, the test made by the axis label formatter.
Without any data the range is `[now - selectedHours * 3600000, now]`; the quotient by
`1000 * 60 * 60` is taken in `ℚ`. The case `dataMaxTime = -Infinity` with a finite
`dataMinTime` gives the span `-Infinity`, which is not greater than 24. -/
def spanExceedsDay (series : List Series) (selectedHours now : Int) : Bool :=
  match dataRange series with
  | (none, _) =>
    let dataMinTime := now - selectedHours * 60 * 60 * 1000
    let dataMaxTime := now
    decide (((dataMaxTime - dataMinTime : Int) : ℚ) / (1000 * 60 * 60) > 24)
  | (some dataMinTime, some dataMaxTime) =>
    decide (((dataMaxTime - dataMinTime : Int) : ℚ) / (1000 * 60 * 60) > 24)
  | (some _, none) => false

/-- The fields of a `Date` read by the formatters: `getMonth()`, `getDate()`,
`getHours()`, `getMinutes()` in the browser's time zone. -/
structure LocalTime where
  month : Nat
  date : Nat
  hours : Nat
  minutes : Nat
  deriving Repr, DecidableEq

/-- `String(n).padStart(2, '0')`. -/
def padStart2 (n : Nat) : String :=
  let s := toString n
  ⟨List.replicate (2 - s.length) '0'⟩ ++ s

/-- The long label, month/day plus hour:minute (lines 415, 443, 485, 549). -/
def formatLong (d : LocalTime) : String :=
  toString (d.month + 1) ++ "/" ++ toString d.date ++ " " ++
    toString d.hours ++ ":" ++ padStart2 d.minutes

/-- The short label, hour:minute only (line 446). -/
def formatShort (d : LocalTime) : String :=
  toString d.hours ++ ":" ++ padStart2 d.minutes

/-- The `xAxis.axisLabel.formatter` closure built by `renderEChart(series)`,
lines 438-448, applied to `value`. `localTime` is `new Date(value)` read in the
browser's time zone. -/
def axisLabelFormatter (series : List Series) (selectedHours now : Int)
    (localTime : Int → LocalTime) (value : Int) : String :=
  let d := localTime value
  if spanExceedsDay series selectedHours now then formatLong d
  else formatShort d

/-- The time stamps of all points of all series that are numbers (not `NaN`). -/
def allTimes (series : List Series) : List Int :=
  series.flatMap (fun s => s.data.filterMap (fun d => d.1))

/-- `x.toFixed(0)` for the quotient `x = num / den` of a non-negative integer by a
positive integer, for `x < 10 ^ 21` (from there on `toFixed` prints the exponent form):
the nearest integer, the larger one at a tie, in decimal. -/
def toFixed0 (num den : Int) : String :=
  toString ((2 * num + den) / (2 * den))

/-- `compactNumber(num)`, lines 541-545, on integer values. -/
def compactNumber (num : Int) : String :=
  if num ≥ 1000000 then toFixed0 num 1000000 ++ "M"
  else if num ≥ 1000 then toFixed0 num 1000 ++ "k"
  else toString num

/-- One element of the `params` array the chart library hands to the tooltip formatter:
`value` is the `[timestamp, hot_value]` pair of the hovered point. -/
structure TooltipParam where
  value : Int × Int
  marker : String
  seriesName : String
  deriving Repr, DecidableEq

/-- One `<div style="display:flex;...">` row of the tooltip (lines 418-421). -/
structure TooltipLine where
  marker : String
  seriesName : String
  valueText : String
  deriving Repr, DecidableEq

/-- What the tooltip formatter returns: the empty string, or the bold `timeStr` header
followed by one row per element of `params`. -/
inductive TooltipHtml where
  | empty
  | content (timeStr : String) (lines : List TooltipLine)
  deriving Repr, DecidableEq

/-- The `tooltip.formatter` closure built by `renderEChart(series)`, lines 412-424,
applied to `params`. The closure reads neither `series` nor `timeSpanHours`.

```
if (!params || params.length === 0) return '';
const time = new Date(params[0].value[0]);
const timeStr = `${time.getMonth() + 1}/${time.getDate()} ${time.getHours()}:${...}`;
```
-/
def tooltipFormatter (_series : List Series) (_selectedHours _now : Int)
    (localTime : Int → LocalTime) (params : List TooltipParam) : TooltipHtml :=
  match params with
  | [] => .empty
  | p0 :: _ =>
    let time := localTime p0.value.1
    let timeStr :=
      toString (time.month + 1) ++ "/" ++ toString time.date ++ " " ++
        toString time.hours ++ ":" ++ padStart2 time.minutes
    .content timeStr
      (params.map (fun p => ⟨p.marker, p.seriesName, compactNumber p.value.2⟩))

/-! ## Specification vocabulary used by the proofs -/

/-- The invariant of the workspace: at most five words, pairwise distinct. -/
def WorkspaceInv (compareWords : List String) : Prop :=
  compareWords.length ≤ 5 ∧ compareWords.Nodup

/-- `acc` is the pair `(dataMinTime, dataMaxTime)` belonging to the time stamps `ts`:
both still infinite when there is none, else the least and the greatest of them. -/
def RangeOf (acc : Option Int × Option Int) (ts : List Int) : Prop :=
  (ts = [] ∧ acc = (none, none)) ∨
    ∃ lo hi, acc = (some lo, some hi) ∧ lo ∈ ts ∧ hi ∈ ts ∧ ∀ t ∈ ts, lo ≤ t ∧ t ≤ hi

/-- The filtered points the resolution of `word` leaves for the chart: the data of the
`try` block, or nothing when the block ended in the `catch`. -/
def wordData (selectedHours : Int) (env : String → WordEnv) (word : String) :
    List TrendPoint :=
  ((resolveWord selectedHours word (env word)).data).getD []

/-- The series a word contributes on the strength of its own fetches alone: its name, its
own filtered points as `[timestamp, hot_value]` pairs, and the palette colour of its
position `idx`. -/
def seriesFor (selectedHours : Int) (env : String → WordEnv) (word : String) (idx : Nat) :
    Series :=
  { name := word
    data := (wordData selectedHours env word).map (fun d => (d.timeMs, d.hot_value))
    color := PALETTE.getD (idx % PALETTE.length) "" }

/-! ## Workspace store: proofs -/

theorem addWord_preserves (ws : List String) (word : String) (h : WorkspaceInv ws) :
    WorkspaceInv (addWord ws word) := by
  unfold addWord
  by_cases h0 : word = ""
  · simpa [h0] using h
  · by_cases h1 : jsTrim word ∈ ws
    · simpa [h0, h1] using h
    · by_cases h2 : ws.length ≥ 5
      · simpa [h0, h1, h2] using h
      · simp only [h0, h1, h2, if_false]
        refine ⟨?_, ?_⟩
        · simp only [List.length_append, List.length_singleton]
          omega
        · exact List.Nodup.append h.2 (List.nodup_singleton _)
            (by simpa [List.disjoint_singleton] using h1)

theorem removeWord_preserves (ws : List String) (word : String) (h : WorkspaceInv ws) :
    WorkspaceInv (removeWord ws word) :=
  ⟨le_trans (List.length_filter_le _ _) h.1, h.2.filter _⟩

theorem quickPreview_preserves (ws : List String) (word : String) :
    WorkspaceInv (quickPreview ws word) :=
  ⟨by simp [quickPreview], by simp [quickPreview]⟩

theorem run_preserves (ws : List String) (c : WorkspaceCall) (h : WorkspaceInv ws) :
    WorkspaceInv (c.run ws) := by
  cases c with
  | addWord w => exact addWord_preserves ws w h
  | removeWord w => exact removeWord_preserves ws w h
  | quickPreview w => exact quickPreview_preserves ws w

theorem foldl_run_preserves (calls : List WorkspaceCall) :
    ∀ ws : List String, WorkspaceInv ws → WorkspaceInv (calls.foldl WorkspaceCall.run ws) := by
  induction calls with
  | nil => intro ws h; exact h
  | cons c rest ih => intro ws h; exact ih _ (run_preserves ws c h)

/-- C1: starting from the empty workspace, after any finite sequence of `addWord`,
`removeWord` and `quickPreview` calls with arbitrary string arguments, `compareWords`
has at most 5 elements and no two equal elements. -/
theorem workspace_invariant (calls : List WorkspaceCall) :
    (runCalls calls).length ≤ 5 ∧ (runCalls calls).Nodup :=
  foldl_run_preserves calls [] ⟨by simp, List.nodup_nil⟩

/-- C2: when the workspace holds exactly 5 words, `addWord(word)` leaves `compareWords`
the same list (same words, same order), whose size is still 5. -/
theorem addWord_full_rejected (compareWords : List String) (word : String)
    (h : compareWords.length = 5) :
    addWord compareWords word = compareWords ∧ (addWord compareWords word).length = 5 := by
  have key : addWord compareWords word = compareWords := by
    unfold addWord
    by_cases h0 : word = ""
    · simp [h0]
    · by_cases h1 : jsTrim word ∈ compareWords
      · simp [h0, h1]
      · simp [h0, h1, h]
  exact ⟨key, by rw [key]; exact h⟩

/-- C2 at a concrete full workspace: a sixth word is not added. -/
theorem addWord_full_rejected_witness :
    ["a", "b", "c", "d", "e"].length = 5 ∧
      addWord ["a", "b", "c", "d", "e"] "f" = ["a", "b", "c", "d", "e"] ∧
      (addWord ["a", "b", "c", "d", "e"] "f").length = 5 :=
  ⟨by decide, addWord_full_rejected ["a", "b", "c", "d", "e"] "f" (by decide)⟩

/-- C3 fails as stated: after `quickPreview(" a")` the word `" a"` is an element of
`compareWords`, yet `addWord(" a")` appends its trimmed form `"a"`. -/
theorem addWord_present_untrimmed_appends :
    " a" ∈ quickPreview [] " a" ∧
      addWord (quickPreview [] " a") " a" = [" a", "a"] ∧
      addWord (quickPreview [] " a") " a" ≠ quickPreview [] " a" := by
  decide

/-- C3 (amended): for every workspace state and every word whose trimmed form is an
element of `compareWords`, `addWord(word)` leaves `compareWords` unchanged (same content,
same order). -/
theorem addWord_trimmed_present_rejected (compareWords : List String) (word : String)
    (h : jsTrim word ∈ compareWords) :
    addWord compareWords word = compareWords := by
  unfold addWord
  by_cases h0 : word = ""
  · simp [h0]
  · simp [h0, h]

/-- C3 (amended) at a concrete workspace: `" b "` trims to the stored word `"b"`. -/
theorem addWord_trimmed_present_rejected_witness :
    jsTrim " b " ∈ ["a", "b"] ∧ addWord ["a", "b"] " b " = ["a", "b"] :=
  ⟨by decide, addWord_trimmed_present_rejected ["a", "b"] " b " (by decide)⟩

/-- C4 fails on the code: the word `" "` consists only of white space, is not the empty
string, so it passes the guard `if (!word) return;`, is trimmed to `""`, and the empty
string is appended to the empty workspace. -/
theorem addWord_whitespace_appends_empty :
    " " ≠ "" ∧ jsTrim " " = "" ∧ addWord [] " " = [""] ∧ addWord [] " " ≠ [] := by
  decide

/-! ## Hot list: proofs -/

theorem rankedItems_eq (list : List HotWordItem) :
    (renderHotList list).rankedItems = list.filter (fun item => item.hot_value > 0) := rfl

theorem newItems_eq (list : List HotWordItem) :
    (renderHotList list).newItems = list.filter (fun item => item.hot_value = 0) := rfl

theorem ranked_append_new_perm (list : List HotWordItem) :
    ((renderHotList list).rankedItems ++ (renderHotList list).newItems).Perm list := by
  rw [rankedItems_eq, newItems_eq]
  have h := List.filter_append_perm (fun item : HotWordItem => decide (item.hot_value > 0)) list
  have e : (fun x : HotWordItem => !decide (x.hot_value > 0)) =
      (fun item : HotWordItem => decide (item.hot_value = 0)) := by
    funext x
    by_cases hx : x.hot_value = 0 <;> simp [hx, Nat.pos_iff_ne_zero]
  rw [e] at h
  exact h

theorem hotList_rows (list : List HotWordItem) (hne : list ≠ []) :
    (renderHotList list).hotList =
      .rows ((renderHotList list).rankedItems.mapIdx rankedRow) := by
  cases list with
  | nil => exact absurd rfl hne
  | cons a rest =>
    have hlen : ¬ (((a :: rest).filter (fun item => decide (item.hot_value > 0))).length = 0 ∧
        ((a :: rest).filter (fun item => decide (item.hot_value = 0))).length = 0) := by
      intro ⟨h1, h2⟩
      by_cases ha : a.hot_value = 0
      · simp [List.filter_cons, ha] at h2
      · have : 0 < a.hot_value := Nat.pos_of_ne_zero ha
        simp [List.filter_cons, this] at h1
    simp only [renderHotList, hlen, if_false]

/-- C5: the two groups computed by `renderHotList` partition the list. Every item of the
list is in `newItems` iff its `hot_value` is 0 and in `rankedItems` iff it is not; no item
is in both; the two groups together are a rearrangement of the list (each occurrence lands
in exactly one group); both groups keep the input order; and row `i` of the ranked list
shows rank `i + 1` for the `i`-th ranked item. On `[A(500000), B(0)]` the ranked list is
`[A]` with rank 1 and the new-entries grid is `[B]`. -/
theorem renderHotList_partition (list : List HotWordItem) :
    (∀ item ∈ list,
        (item ∈ (renderHotList list).newItems ↔ item.hot_value = 0) ∧
        (item ∈ (renderHotList list).rankedItems ↔ item.hot_value ≠ 0)) ∧
      (∀ item, ¬ (item ∈ (renderHotList list).rankedItems ∧
        item ∈ (renderHotList list).newItems)) ∧
      ((renderHotList list).rankedItems ++ (renderHotList list).newItems).Perm list ∧
      (renderHotList list).rankedItems.Sublist list ∧
      (renderHotList list).newItems.Sublist list ∧
      (list ≠ [] → ∃ rows, (renderHotList list).hotList = .rows rows ∧
        rows.length = (renderHotList list).rankedItems.length ∧
        ∀ (i : Nat) (h : i < (renderHotList list).rankedItems.length),
          ∃ row, rows[i]? = some row ∧ row.rankNum = i + 1 ∧
            row.title = escapeHtml ((renderHotList list).rankedItems[i]).word ∧
            row.hotValue = ((renderHotList list).rankedItems[i]).hot_value) ∧
      (renderHotList [⟨"A", 500000, none⟩, ⟨"B", 0, none⟩]).rankedItems =
        [⟨"A", 500000, none⟩] ∧
      (renderHotList [⟨"A", 500000, none⟩, ⟨"B", 0, none⟩]).hotList =
        .rows [⟨"A", 1, "A", false, 500000⟩] ∧
      (renderHotList [⟨"A", 500000, none⟩, ⟨"B", 0, none⟩]).newItems =
        [⟨"B", 0, none⟩] ∧
      (renderHotList [⟨"A", 500000, none⟩, ⟨"B", 0, none⟩]).newList = [⟨"B", "B"⟩] := by
  refine ⟨?_, ?_, ranked_append_new_perm list, ?_, ?_, ?_, by decide, by decide, by decide,
    by decide⟩
  · intro item hmem
    rw [rankedItems_eq, newItems_eq]
    simp [List.mem_filter, hmem, Nat.pos_iff_ne_zero]
  · intro item
    rw [rankedItems_eq, newItems_eq]
    simp only [List.mem_filter, decide_eq_true_eq]
    rintro ⟨⟨_, h1⟩, ⟨_, h2⟩⟩
    omega
  · rw [rankedItems_eq]; exact List.filter_sublist _
  · rw [newItems_eq]; exact List.filter_sublist _
  · intro hne
    refine ⟨_, hotList_rows list hne, List.length_mapIdx, ?_⟩
    intro i h
    have h2 : i < ((renderHotList list).rankedItems.mapIdx rankedRow).length := by
      rw [List.length_mapIdx]; exact h
    refine ⟨rankedRow i ((renderHotList list).rankedItems[i]), ?_, rfl, rfl, rfl⟩
    rw [List.getElem?_eq_getElem h2, List.getElem_mapIdx]

/-! ## Trend aggregation: proofs -/

theorem historyFallback_requests (selectedHours : Int) (word : String) (env : WordEnv) :
    (historyFallback selectedHours word env).requests =
      [Request.history word (historyDays selectedHours)] := by
  unfold historyFallback
  rcases env with ⟨tr, hr, now⟩
  cases hr with
  | rejected => rfl
  | badJson => rfl
  | json j2 =>
    rcases j2 with ⟨s, hist⟩
    cases s <;> cases hist <;> rfl

/-- C6 fails as stated: when the trend fetch rejects, or its body does not parse, only
the trend request is sent and no history request follows, whatever the history endpoint
would have answered. -/
theorem trend_failure_sends_no_history :
    (resolveWord 1 "w" ⟨.rejected, .json ⟨true, some [⟨some 0, 7⟩]⟩, 0⟩).requests =
        [Request.trend "w" 1] ∧
      (resolveWord 1 "w" ⟨.badJson, .json ⟨true, some [⟨some 0, 7⟩]⟩, 0⟩).requests =
        [Request.trend "w" 1] ∧
      Request.history "w" (historyDays 1) ∉
        (resolveWord 1 "w" ⟨.rejected, .json ⟨true, some [⟨some 0, 7⟩]⟩, 0⟩).requests := by
  decide

theorem resolveWord_requests (selectedHours : Int) (word : String) (env : WordEnv) :
    ((∃ j1, env.trendResp = .json j1 ∧ (j1.success = false ∨ j1.trend = some [])) →
        (resolveWord selectedHours word env).requests =
          [Request.trend word selectedHours,
           Request.history word (historyDays selectedHours)]) ∧
      ((¬ ∃ j1, env.trendResp = .json j1 ∧ (j1.success = false ∨ j1.trend = some [])) →
        (resolveWord selectedHours word env).requests = [Request.trend word selectedHours]) := by
  rcases env with ⟨tr, hr, now⟩
  cases tr with
  | rejected => exact ⟨(by rintro ⟨j1, h, _⟩; cases h), fun _ => rfl⟩
  | badJson => exact ⟨(by rintro ⟨j1, h, _⟩; cases h), fun _ => rfl⟩
  | json j1 =>
    rcases j1 with ⟨s, trend⟩
    cases s with
    | false =>
      refine ⟨fun _ => ?_, fun h => absurd ⟨_, rfl, Or.inl rfl⟩ h⟩
      simp [resolveWord, historyFallback_requests]
    | true =>
      cases trend with
      | none =>
        refine ⟨?_, fun _ => rfl⟩
        rintro ⟨j1, h, h2⟩
        cases h
        simp at h2
      | some t =>
        cases t with
        | nil =>
          refine ⟨fun _ => ?_, fun h => absurd ⟨_, rfl, Or.inr rfl⟩ h⟩
          simp [resolveWord, historyFallback_requests]
        | cons p ps =>
          refine ⟨?_, fun _ => ?_⟩
          · rintro ⟨j1, h, h2⟩
            cases h
            simp at h2
          · simp [resolveWord]

/-- C6 (amended): in the per-word resolution the history request for the word is sent
exactly when the trend body was received and parsed and either its `success` is false or
its `trend` sequence is present and empty; in that case the requests are the trend request
followed by the history request. In every other case (the trend fetch rejects, the body
does not parse, `success` is true with the `trend` field missing, or `trend` is non-empty)
the trend request is the only request. -/
theorem history_request_iff (selectedHours : Int) (word : String) (env : WordEnv) :
    ((∃ d, Request.history word d ∈ (resolveWord selectedHours word env).requests) ↔
        ∃ j1, env.trendResp = .json j1 ∧ (j1.success = false ∨ j1.trend = some [])) ∧
      ((∃ j1, env.trendResp = .json j1 ∧ (j1.success = false ∨ j1.trend = some [])) →
        (resolveWord selectedHours word env).requests =
          [Request.trend word selectedHours,
           Request.history word (historyDays selectedHours)]) ∧
      ((¬ ∃ j1, env.trendResp = .json j1 ∧ (j1.success = false ∨ j1.trend = some [])) →
        (resolveWord selectedHours word env).requests = [Request.trend word selectedHours]) := by
  refine ⟨?_, resolveWord_requests selectedHours word env⟩
  constructor
  · rintro ⟨d, hd⟩
    by_contra hc
    rw [(resolveWord_requests selectedHours word env).2 hc] at hd
    simp at hd
  · intro hc
    refine ⟨historyDays selectedHours, ?_⟩
    rw [(resolveWord_requests selectedHours word env).1 hc]
    simp

theorem mem_postFilter (selectedHours now : Int) (data : List TrendPoint) (p : TrendPoint) :
    p ∈ postFilter selectedHours now data ↔
      p ∈ data ∧ ∃ t, p.timeMs = some t ∧ t ≥ now - selectedHours * 3600000 := by
  unfold postFilter
  simp only [List.mem_filter]
  constructor
  · rintro ⟨hmem, hp⟩
    refine ⟨hmem, ?_⟩
    cases ht : p.timeMs with
    | none => simp [ht] at hp
    | some t =>
      simp only [ht, decide_eq_true_eq] at hp
      exact ⟨t, rfl, by omega⟩
  · rintro ⟨hmem, t, ht, hge⟩
    refine ⟨hmem, ?_⟩
    simp only [ht, decide_eq_true_eq]
    omega

theorem historyFallback_data (selectedHours : Int) (word : String) (env : WordEnv)
    (d : List TrendPoint) (h : (historyFallback selectedHours word env).data = some d) :
    ∃ raw, d = postFilter selectedHours env.now raw := by
  unfold historyFallback at h
  rcases env with ⟨tr, hr, now⟩
  cases hr with
  | rejected => simp at h
  | badJson => simp at h
  | json j2 =>
    rcases j2 with ⟨s, hist⟩
    cases s <;> cases hist <;> simp at h <;> exact ⟨_, h.symm⟩

theorem resolveWord_data (selectedHours : Int) (word : String) (env : WordEnv)
    (d : List TrendPoint) (h : (resolveWord selectedHours word env).data = some d) :
    ∃ raw, d = postFilter selectedHours env.now raw := by
  unfold resolveWord at h
  rcases env with ⟨tr, hr, now⟩
  cases tr with
  | rejected => simp at h
  | badJson => simp at h
  | json j1 =>
    rcases j1 with ⟨s, trend⟩
    cases s with
    | false => exact historyFallback_data selectedHours word ⟨_, hr, now⟩ d (by simpa using h)
    | true =>
      cases trend with
      | none => simp at h
      | some t =>
        cases t with
        | nil => exact historyFallback_data selectedHours word ⟨_, hr, now⟩ d (by simpa using h)
        | cons p ps => exact ⟨p :: ps, by simpa using h.symm⟩

/-- C8: the client-side filter of `updateChart`. For every sequence of points, every
`selectedHours` and every `now`, a point of the sequence with time stamp `t` survives iff
`t ≥ now − selectedHours · 3 600 000`; a point exactly at the cutoff is retained, a
strictly older point (and a point without a parsable time) is dropped; the survivors keep
their relative order; and whenever the per-word resolution yields data, every point of it
passed this filter. -/
theorem postFilter_boundary_inclusive (data : List TrendPoint) (selectedHours now : Int) :
    (∀ p ∈ data, ∀ t, p.timeMs = some t →
        (p ∈ postFilter selectedHours now data ↔ t ≥ now - selectedHours * 3600000)) ∧
      (∀ p ∈ data, p.timeMs = some (now - selectedHours * 3600000) →
        p ∈ postFilter selectedHours now data) ∧
      (∀ p t, p.timeMs = some t → t < now - selectedHours * 3600000 →
        p ∉ postFilter selectedHours now data) ∧
      (∀ p, p.timeMs = none → p ∉ postFilter selectedHours now data) ∧
      (postFilter selectedHours now data).Sublist data ∧
      (∀ word env d, env.now = now → (resolveWord selectedHours word env).data = some d →
        ∀ p ∈ d, ∃ t, p.timeMs = some t ∧ t ≥ now - selectedHours * 3600000) := by
  refine ⟨?_, ?_, ?_, ?_, ?_, ?_⟩
  · intro p hp t ht
    rw [mem_postFilter]
    constructor
    · rintro ⟨_, t2, ht2, hge⟩
      rw [ht] at ht2
      cases ht2
      exact hge
    · intro hge
      exact ⟨hp, t, ht, hge⟩
  · intro p hp ht
    rw [mem_postFilter]
    exact ⟨hp, _, ht, le_refl _⟩
  · intro p t ht hlt hmem
    rw [mem_postFilter] at hmem
    obtain ⟨_, t2, ht2, hge⟩ := hmem
    rw [ht] at ht2
    cases ht2
    omega
  · intro p ht hmem
    rw [mem_postFilter] at hmem
    obtain ⟨_, t2, ht2, _⟩ := hmem
    rw [ht] at ht2
    cases ht2
  · exact List.filter_sublist _
  · intro word env d hnow hd p hp
    obtain ⟨raw, hraw⟩ := resolveWord_data selectedHours word env d hd
    rw [hraw, hnow, mem_postFilter] at hp
    exact hp.2

theorem roundHalfEven_24 (n : Nat) :
    24 * roundHalfEven n 24 ≤ n + 12 ∧ n ≤ 24 * roundHalfEven n 24 + 12 := by
  unfold roundHalfEven
  simp only
  split_ifs <;> omega

theorem log2Aux_le (fuel : Nat) : ∀ n k : Nat, n < 2 ^ (k + 1) → log2Aux fuel n ≤ k := by
  induction fuel with
  | zero => intro n k _; simp [log2Aux]
  | succ fuel ih =>
    intro n k h
    unfold log2Aux
    by_cases h2 : n < 2
    · simp [h2]
    · simp only [h2, if_false]
      cases k with
      | zero => simp at h; omega
      | succ k =>
        have : n / 2 < 2 ^ (k + 1) := by
          rw [pow_succ] at h
          omega
        have := ih (n / 2) k this
        omega

theorem quotientExponent_le (a : Nat) (ha : a ≤ 9007199254740992) :
    quotientExponent a 24 ≤ 48 := by
  unfold quotientExponent
  by_cases h : 24 ≤ a
  · simp only [h, if_true]
    have h1 : a / 24 < 2 ^ (48 + 1) := by
      norm_num
      omega
    have := log2Aux_le (a / 24) (a / 24) 48 h1
    unfold floorLog2
    omega
  · simp only [h, if_false]
    omega

/-- Up to `2 ^ 53` the rounding of the binary64 division does not move the quotient by
24 across an integer: the scale is at least 16, the rounding error at most half a unit of
the significand, and a non-integral quotient is at least `1 / 24` away from an integer. -/
theorem ceil_doubleQuotient_24 (a : Nat) (ha : a ≤ 9007199254740992) :
    ceilOfFraction (doubleQuotient a 24) = (a + 23) / 24 := by
  have he := quotientExponent_le a ha
  have he2 : quotientExponent a 24 ≤ 52 := by omega
  unfold doubleQuotient ceilOfFraction
  simp only [he2, if_true]
  obtain ⟨k, hk⟩ : ∃ k : Nat, (52 - quotientExponent a 24).toNat = 4 + k :=
    ⟨(52 - quotientExponent a 24).toNat - 4, by omega⟩
  rw [hk]
  have hP : 16 ≤ 2 ^ (4 + k) := by
    rw [pow_add]
    have : 1 ≤ 2 ^ k := Nat.one_le_two_pow
    omega
  generalize 2 ^ (4 + k) = P at hP
  obtain ⟨hr1, hr2⟩ := roundHalfEven_24 (a * P)
  generalize roundHalfEven (a * P) 24 = m at hr1 hr2
  have hc1 : a ≤ 24 * ((a + 23) / 24) := by omega
  have hc2 : 24 * ((a + 23) / 24) ≤ a + 23 := by omega
  have hX1 := Nat.mul_le_mul_right P hc1
  have hX2 := Nat.mul_le_mul_right P hc2
  have e1 : 24 * ((a + 23) / 24) * P = 24 * (((a + 23) / 24) * P) := by ring
  have e2 : (a + 23) * P = a * P + 23 * P := by ring
  rw [e1] at hX1 hX2
  rw [e2] at hX2
  generalize (a + 23) / 24 = c at *
  generalize hY : c * P = Y at *
  generalize a * P = X at *
  have hlow : Y ≤ m + P - 1 := by omega
  have hup : m + P - 1 < Y + P := by omega
  refine Nat.div_eq_of_lt_le ?_ ?_
  · rw [hY]; exact hlow
  · have : (c + 1) * P = c * P + P := by ring
    rw [this, hY]; exact hup

theorem ceil_rat_div_24 (a : Int) : ⌈(a : ℚ) / 24⌉ = (a + 23) / 24 := by
  have h := Rat.floor_intCast_div_natCast (-a) 24
  have e : ⌈(a : ℚ) / 24⌉ = -⌊((-a : Int) : ℚ) / ((24 : ℕ) : ℚ)⌋ := by
    rw [← Int.ceil_neg]
    congr 1
    push_cast
    ring
  rw [e, h]
  push_cast
  omega

theorem historyDays_exact (selectedHours : Int) (hpos : 0 < selectedHours)
    (hle : selectedHours ≤ 9007199254740992) :
    historyDays selectedHours = max 1 ((selectedHours + 23) / 24) := by
  unfold historyDays mathCeilOfQuotient
  lift selectedHours to ℕ using hpos.le with n
  have hn : n ≤ 9007199254740992 := by exact_mod_cast hle
  simp only [hpos, if_true, Int.toNat_ofNat, ceil_doubleQuotient_24 n hn]
  congr 1

/-- C9 fails as stated: `108086391056891936 = 24 · (2^52 + 1) + 8` is a positive integer
a Number holds exactly; the binary64 quotient by 24 rounds down to the integer
`2^52 + 1`, so the history request carries `days = 4503599627370497`, for which
`24 · days < selectedHours`, and not `ceil(selectedHours / 24) = 4503599627370498`. -/
theorem historyDays_rounds_below_ceiling :
    (0 : Int) < 108086391056891936 ∧
      historyDays 108086391056891936 = 4503599627370497 ∧
      24 * historyDays 108086391056891936 < 108086391056891936 ∧
      (resolveWord 108086391056891936 "w" ⟨.json ⟨true, some []⟩, .rejected, 0⟩).requests =
        [Request.trend "w" 108086391056891936, Request.history "w" 4503599627370497] ∧
      historyDays 108086391056891936 ≠ max 1 ((108086391056891936 + 23) / 24) := by
  decide

/-- C9 (amended): for every positive integer `selectedHours` up to `2^53 =
9007199254740992`, the `days` parameter of the history request equals
`max(1, ceil(selectedHours / 24))`; it is a positive integer `d` with
`24·d ≥ selectedHours` and no smaller positive integer has that property; whenever the
trend body has `success` false or an empty `trend`, the history request is sent with
exactly this value, and no history request carries another value; `selectedHours = 30`
with an empty trend sequence asks for `days = 2`. -/
theorem historyDays_least (selectedHours : Int) (hpos : 0 < selectedHours)
    (hle : selectedHours ≤ 9007199254740992) :
    historyDays selectedHours = max 1 ⌈(selectedHours : ℚ) / 24⌉ ∧
      1 ≤ historyDays selectedHours ∧
      selectedHours ≤ 24 * historyDays selectedHours ∧
      (∀ d : Int, 0 < d → selectedHours ≤ 24 * d → historyDays selectedHours ≤ d) ∧
      (∀ word env,
        (∃ j1, env.trendResp = .json j1 ∧ (j1.success = false ∨ j1.trend = some [])) →
        (resolveWord selectedHours word env).requests =
          [Request.trend word selectedHours,
           Request.history word (max 1 ⌈(selectedHours : ℚ) / 24⌉)]) ∧
      (∀ word env w d, Request.history w d ∈ (resolveWord selectedHours word env).requests →
        w = word ∧ d = max 1 ⌈(selectedHours : ℚ) / 24⌉) ∧
      (resolveWord 30 "w" ⟨.json ⟨true, some []⟩, .rejected, 0⟩).requests =
        [Request.trend "w" 30, Request.history "w" 2] := by
  have hex := historyDays_exact selectedHours hpos hle
  have hceil : historyDays selectedHours = max 1 ⌈(selectedHours : ℚ) / 24⌉ := by
    rw [hex, ceil_rat_div_24]
  have h1 : 1 ≤ historyDays selectedHours := le_max_left _ _
  have h2 : (selectedHours + 23) / 24 ≤ historyDays selectedHours := by
    rw [hex]; exact le_max_right _ _
  refine ⟨hceil, h1, by omega, ?_, ?_, ?_, by decide⟩
  · intro d hd hdle
    rw [hex]
    exact max_le (by omega) (by omega)
  · intro word env hc
    rw [(resolveWord_requests selectedHours word env).1 hc, hceil]
  · intro word env w d hmem
    by_cases hc : ∃ j1, env.trendResp = .json j1 ∧ (j1.success = false ∨ j1.trend = some [])
    · rw [(resolveWord_requests selectedHours word env).1 hc] at hmem
      simp at hmem
      rw [← hceil]
      exact hmem
    · rw [(resolveWord_requests selectedHours word env).2 hc] at hmem
      simp at hmem

/-- C9 (amended) at `selectedHours = 30`: an empty trend sequence makes the history
request ask for `max(1, ceil(30 / 24)) = 2` days. -/
theorem historyDays_least_witness :
    (0 : Int) < 30 ∧ (30 : Int) ≤ 9007199254740992 ∧
      historyDays 30 = max 1 ⌈((30 : Int) : ℚ) / 24⌉ ∧ historyDays 30 = 2 ∧
      (resolveWord 30 "w" ⟨.json ⟨true, some []⟩, .rejected, 0⟩).requests =
        [Request.trend "w" 30, Request.history "w" (max 1 ⌈((30 : Int) : ℚ) / 24⌉)] :=
  ⟨by decide, by decide, (historyDays_least 30 (by decide) (by decide)).1, by decide,
    (historyDays_least 30 (by decide) (by decide)).2.2.2.2.1 "w"
      ⟨.json ⟨true, some []⟩, .rejected, 0⟩ ⟨_, rfl, Or.inr rfl⟩⟩

/-! ## Series assembly: proofs -/

theorem proto_mem_objectPrototypeKeys : "__proto__" ∈ objectPrototypeKeys := by decide

theorem fetchStep_state (selectedHours : Int) (env : String → WordEnv)
    (st : DataMap × List Request) (a : String) (ha : a ≠ "__proto__") :
    (fetchStep selectedHours env st a).1.proto = st.1.proto ∧
      ∀ w, (fetchStep selectedHours env st a).1.own.lookup w =
        if a = w ∧ wordData selectedHours env a ≠ [] then some (wordData selectedHours env a)
        else st.1.own.lookup w := by
  unfold fetchStep wordData
  cases hd : (resolveWord selectedHours a (env a)).data with
  | none => simp [hd]
  | some data =>
    cases data with
    | nil => simp [hd]
    | cons p ps =>
      refine ⟨by simp [hd, DataMap.set, ha], fun w => ?_⟩
      by_cases hw : a = w
      · subst hw
        simp [hd, DataMap.set, ha, List.lookup_cons]
      · have hw2 : (w == a) = false := by
          simpa using fun h : w = a => hw h.symm
        simp [hd, DataMap.set, ha, List.lookup_cons, hw, hw2]

theorem fetchLoop_state (selectedHours : Int) (env : String → WordEnv) (ws : List String) :
    ∀ st : DataMap × List Request, (∀ w ∈ ws, w ≠ "__proto__") →
      (ws.foldl (fetchStep selectedHours env) st).1.proto = st.1.proto ∧
        ∀ w, (ws.foldl (fetchStep selectedHours env) st).1.own.lookup w =
          if w ∈ ws ∧ wordData selectedHours env w ≠ [] then
            some (wordData selectedHours env w)
          else st.1.own.lookup w := by
  induction ws with
  | nil => intro st _; simp
  | cons a rest ih =>
    intro st hsafe
    have ha : a ≠ "__proto__" := hsafe a (List.mem_cons_self _ _)
    have hrest : ∀ w ∈ rest, w ≠ "__proto__" := fun w hw => hsafe w (List.mem_cons_of_mem _ hw)
    obtain ⟨hp, hl⟩ := fetchStep_state selectedHours env st a ha
    obtain ⟨ihp, ihl⟩ := ih (fetchStep selectedHours env st a) hrest
    rw [List.foldl_cons]
    refine ⟨ihp.trans hp, fun w => ?_⟩
    rw [ihl w, hl w]
    by_cases h1 : w ∈ rest ∧ wordData selectedHours env w ≠ []
    · simp [h1]
    · by_cases h2 : a = w ∧ wordData selectedHours env a ≠ []
      · obtain ⟨h2a, h2b⟩ := h2
        subst h2a
        simp [h1, h2b]
      · rw [if_neg h1, if_neg h2]
        have h3 : ¬ (w ∈ a :: rest ∧ wordData selectedHours env w ≠ []) := by
          rintro ⟨hm, hne⟩
          rcases List.mem_cons.mp hm with hm | hm
          · exact h2 ⟨hm.symm, hm ▸ hne⟩
          · exact h1 ⟨hm, hne⟩
        rw [if_neg h3]

theorem seriesOf_safe (selectedHours : Int) (env : String → WordEnv) (ws : List String)
    (hsafe : ∀ w ∈ ws, w ∉ objectPrototypeKeys) (w : String) (hw : w ∈ ws) (idx : Nat) :
    seriesOf (fetchLoop selectedHours env ws).1 w idx =
      some (seriesFor selectedHours env w idx) := by
  have hproto : ∀ w ∈ ws, w ≠ "__proto__" := fun w hw h =>
    hsafe w hw (h ▸ proto_mem_objectPrototypeKeys)
  obtain ⟨hp, hl⟩ := fetchLoop_state selectedHours env ws (DataMap.empty, []) hproto
  have hp2 : (fetchLoop selectedHours env ws).1.proto = none := hp
  have hl2 : (fetchLoop selectedHours env ws).1.own.lookup w =
      if wordData selectedHours env w ≠ [] then some (wordData selectedHours env w)
      else none := by
    have := hl w
    simpa [hw, DataMap.empty] using this
  unfold seriesOf DataMap.get seriesFor
  by_cases hne : wordData selectedHours env w = []
  · simp [hl2, hp2, hne, hsafe w hw]
  · simp [hl2, hp2, hne]

theorem buildSeries_of_seriesOf (selectedHours : Int) (env : String → WordEnv)
    (dataMap : DataMap) (ws : List String) :
    ∀ idx : Nat,
      (∀ w ∈ ws, ∀ i, seriesOf dataMap w i = some (seriesFor selectedHours env w i)) →
      buildSeries dataMap idx ws =
        some (ws.mapIdx (fun i w => seriesFor selectedHours env w (idx + i))) := by
  induction ws with
  | nil => intro idx _; rfl
  | cons a rest ih =>
    intro idx h
    have ha := h a (List.mem_cons_self _ _) idx
    have hr := ih (idx + 1) (fun w hw i => h w (List.mem_cons_of_mem _ hw) i)
    have e : (fun i w => seriesFor selectedHours env w (idx + 1 + i)) =
        (fun i w => seriesFor selectedHours env w (idx + (i + 1))) := by
      funext i w
      congr 1
      omega
    simp only [buildSeries, ha, hr, List.mapIdx_cons, Nat.add_zero, e]

/-- For a non-empty workspace none of whose words is a property name of
`Object.prototype`, `renderEChart` is called with one series per word, in workspace order,
each being what the word's own fetches yield (`seriesFor`): a word whose resolution threw
has no points, and no entry depends on the outcome of another word. -/
theorem updateChart_safe_words (compareWords : List String) (selectedHours : Int)
    (env : String → WordEnv) (hne : compareWords ≠ [])
    (hsafe : ∀ w ∈ compareWords, w ∉ objectPrototypeKeys) :
    (updateChart compareWords selectedHours env).rendered =
      some (compareWords.mapIdx (fun idx w => seriesFor selectedHours env w idx)) := by
  have hlen : ¬ compareWords.length = 0 := by
    simpa [List.length_eq_zero] using hne
  have hb := buildSeries_of_seriesOf selectedHours env
    (fetchLoop selectedHours env compareWords).1 compareWords 0
    (fun w hw i => seriesOf_safe selectedHours env compareWords hsafe w hw i)
  simp only [updateChart, hlen, if_false, hb, Nat.zero_add]

/-- C7 fails on the code. The word `constructor` can be put in the workspace by `addWord`;
when its fetch throws (or yields no point) `dataMap['constructor']` is not `undefined` but
the function inherited from `Object.prototype`, `rawData.map` is not callable, and
`updateChart` throws before `renderEChart(seriesData)` is reached. With a second word
whose fetch succeeded, that word's series is lost as well, while the same outcomes under
an ordinary name give one series per word. -/
theorem updateChart_inherited_name_throws :
    runCalls [.addWord "constructor"] = ["constructor"] ∧
      (updateChart ["constructor"] 1 (fun _ => ⟨.rejected, .rejected, 3600000⟩)).rendered =
        none ∧
      (updateChart ["ok", "constructor"] 1
        (fun w => if w = "ok" then ⟨.json ⟨true, some [⟨some 1800000, 9⟩]⟩, .rejected, 3600000⟩
          else ⟨.rejected, .rejected, 3600000⟩)).rendered = none ∧
      (updateChart ["ok", "other"] 1
        (fun w => if w = "ok" then ⟨.json ⟨true, some [⟨some 1800000, 9⟩]⟩, .rejected, 3600000⟩
          else ⟨.rejected, .rejected, 3600000⟩)).rendered =
        some [⟨"ok", [(some 1800000, 9)], "#6366f1"⟩, ⟨"other", [], "#ec4899"⟩] := by
  decide

/-! ## Chart configuration: proofs -/

theorem rangeStep_none (acc : Option Int × Option Int) (v : Int) :
    rangeStep acc (none, v) = acc := rfl

theorem rangeOf_step (acc : Option Int × Option Int) (ts : List Int) (t v : Int)
    (h : RangeOf acc ts) : RangeOf (rangeStep acc (some t, v)) (ts ++ [t]) := by
  right
  rcases h with ⟨hts, hacc⟩ | ⟨lo, hi, hacc, hlo, hhi, hall⟩
  · subst hts hacc
    exact ⟨t, t, rfl, by simp, by simp, by simp⟩
  · subst hacc
    refine ⟨if t < lo then t else lo, if t > hi then t else hi, ?_, ?_, ?_, ?_⟩
    · simp only [rangeStep]
      split_ifs <;> rfl
    · split_ifs <;> simp [hlo]
    · split_ifs <;> simp [hhi]
    · intro x hx
      rw [List.mem_append, List.mem_singleton] at hx
      rcases hx with hx | hx
      · have := hall x hx
        split_ifs <;> constructor <;> omega
      · subst hx
        split_ifs <;> constructor <;> omega

theorem rangeOf_points (data : List (Option Int × Int)) :
    ∀ (acc : Option Int × Option Int) (ts : List Int), RangeOf acc ts →
      RangeOf (data.foldl rangeStep acc) (ts ++ data.filterMap (fun d => d.1)) := by
  induction data with
  | nil => intro acc ts h; simpa using h
  | cons d rest ih =>
    intro acc ts h
    rcases d with ⟨_ | t, v⟩
    · simpa [List.filterMap_cons, rangeStep_none] using ih acc ts h
    · have := ih _ _ (rangeOf_step acc ts t v h)
      simpa [List.filterMap_cons, List.append_assoc] using this

theorem rangeOf_series (series : List Series) :
    ∀ (acc : Option Int × Option Int) (ts : List Int), RangeOf acc ts →
      RangeOf (series.foldl (fun acc s => s.data.foldl rangeStep acc) acc)
        (ts ++ allTimes series) := by
  induction series with
  | nil => intro acc ts h; simpa [allTimes] using h
  | cons s rest ih =>
    intro acc ts h
    have := ih _ _ (rangeOf_points s.data acc ts h)
    simpa [allTimes, List.flatMap_cons, List.append_assoc] using this

theorem rangeOf_dataRange (series : List Series) :
    RangeOf (dataRange series) (allTimes series) := by
  have := rangeOf_series series (none, none) [] (Or.inl ⟨rfl, rfl⟩)
  simpa [dataRange] using this

theorem span_hours_gt_iff (a : Int) :
    ((a : ℚ) / (1000 * 60 * 60) > 24) ↔ a > 86400000 := by
  rw [gt_iff_lt, lt_div_iff₀ (by norm_num)]
  constructor
  · intro h
    have h2 : ((86400000 : Int) : ℚ) < (a : ℚ) := by push_cast; linarith
    exact_mod_cast h2
  · intro h
    have h2 : ((86400000 : Int) : ℚ) < (a : ℚ) := by exact_mod_cast h
    push_cast at h2
    linarith

theorem spanExceedsDay_of_range (series : List Series) (selectedHours now lo hi : Int)
    (hlo : lo ∈ allTimes series) (hhi : hi ∈ allTimes series)
    (hall : ∀ t ∈ allTimes series, lo ≤ t ∧ t ≤ hi) :
    spanExceedsDay series selectedHours now = decide (hi - lo > 86400000) := by
  rcases rangeOf_dataRange series with ⟨hts, _⟩ | ⟨lo2, hi2, hacc, hlo2, hhi2, hall2⟩
  · rw [hts] at hlo
    cases hlo
  · have e1 : lo2 = lo := le_antisymm (hall2 lo hlo).1 (hall lo2 hlo2).1
    have e2 : hi2 = hi := le_antisymm (hall hi2 hhi2).2 (hall2 hi hhi).2
    subst e1 e2
    simp only [spanExceedsDay, hacc]
    exact decide_eq_decide.mpr (span_hours_gt_iff _)

theorem formatLong_ne_formatShort (d : LocalTime) : formatLong d ≠ formatShort d := by
  intro h
  have := congrArg String.length h
  simp only [formatLong, formatShort, String.length_append] at this
  have h1 : ("/" : String).length = 1 := rfl
  have h2 : (" " : String).length = 1 := rfl
  omega

/-- C10: for every series set with at least one point (`lo` and `hi` being the least and
the greatest time stamp over all points of all series, in milliseconds), the x-axis label
formatter of `renderEChart` returns the long label (month/day plus hour:minute) iff
`hi − lo > 86 400 000` and the short label (hour:minute) iff `hi − lo ≤ 86 400 000`,
whatever `selectedHours` and the current time are. -/
theorem axisLabel_long_iff_span_exceeds_day (series : List Series)
    (selectedHours now : Int) (localTime : Int → LocalTime) (value lo hi : Int)
    (hlo : lo ∈ allTimes series) (hhi : hi ∈ allTimes series)
    (hall : ∀ t ∈ allTimes series, lo ≤ t ∧ t ≤ hi) :
    (axisLabelFormatter series selectedHours now localTime value =
        formatLong (localTime value) ↔ hi - lo > 86400000) ∧
      (axisLabelFormatter series selectedHours now localTime value =
        formatShort (localTime value) ↔ hi - lo ≤ 86400000) := by
  have hs := spanExceedsDay_of_range series selectedHours now lo hi hlo hhi hall
  by_cases hgt : hi - lo > 86400000
  · have hval : axisLabelFormatter series selectedHours now localTime value =
        formatLong (localTime value) := by
      simp [axisLabelFormatter, hs, hgt]
    rw [hval]
    refine ⟨⟨fun _ => hgt, fun _ => rfl⟩, ⟨fun h => ?_, fun h => ?_⟩⟩
    · exact absurd h (formatLong_ne_formatShort _)
    · omega
  · have hval : axisLabelFormatter series selectedHours now localTime value =
        formatShort (localTime value) := by
      simp [axisLabelFormatter, hs, hgt]
    rw [hval]
    refine ⟨⟨fun h => ?_, fun h => absurd h hgt⟩, ⟨fun _ => by omega, fun _ => rfl⟩⟩
    exact absurd h.symm (formatLong_ne_formatShort _)

/-- C10 at the boundary: two series whose points span exactly 24 h give the short label,
and a span of 24 h + 1 ms gives the long label, whatever the selected window is. -/
theorem axisLabel_long_iff_span_exceeds_day_witness :
    ((86400000 : Int) - 0 ≤ 86400000 ∧
      axisLabelFormatter
        [⟨"a", [(some 0, 1)], "#6366f1"⟩, ⟨"b", [(some 86400000, 2)], "#ec4899"⟩]
        168 0 (fun _ => ⟨0, 1, 8, 5⟩) 0 = formatShort ⟨0, 1, 8, 5⟩) ∧
    ((86400001 : Int) - 0 > 86400000 ∧
      axisLabelFormatter
        [⟨"a", [(some 0, 1)], "#6366f1"⟩, ⟨"b", [(some 86400001, 2)], "#ec4899"⟩]
        1 0 (fun _ => ⟨0, 1, 8, 5⟩) 0 = formatLong ⟨0, 1, 8, 5⟩) :=
  ⟨⟨by decide,
    (axisLabel_long_iff_span_exceeds_day
      [⟨"a", [(some 0, 1)], "#6366f1"⟩, ⟨"b", [(some 86400000, 2)], "#ec4899"⟩]
      168 0 (fun _ => ⟨0, 1, 8, 5⟩) 0 0 86400000
      (by simp [allTimes]) (by simp [allTimes]) (by simp [allTimes])).2.mpr (by decide)⟩,
   ⟨by decide,
    (axisLabel_long_iff_span_exceeds_day
      [⟨"a", [(some 0, 1)], "#6366f1"⟩, ⟨"b", [(some 86400001, 2)], "#ec4899"⟩]
      1 0 (fun _ => ⟨0, 1, 8, 5⟩) 0 0 86400001
      (by simp [allTimes]) (by simp [allTimes]) (by simp [allTimes])).1.mpr (by decide)⟩⟩

/-! ## Tooltip: proofs -/

theorem tooltipFormatter_cons (series : List Series) (selectedHours now : Int)
    (localTime : Int → LocalTime) (p : TooltipParam) (ps : List TooltipParam) :
    tooltipFormatter series selectedHours now localTime (p :: ps) =
      .content (formatLong (localTime p.value.1))
        ((p :: ps).map (fun q => ⟨q.marker, q.seriesName, compactNumber q.value.2⟩)) := rfl

/-- C11 fails as stated: for a series whose points span one hour (at most 24 hours) the
axis label is the short `8:05`, yet the tooltip's time label for the same instant is
`1/1 8:05`, with the month/day part. -/
theorem tooltip_long_within_day :
    spanExceedsDay [⟨"a", [(some 0, 1), (some 3600000, 1500)], "#6366f1"⟩] 1 0 = false ∧
      axisLabelFormatter [⟨"a", [(some 0, 1), (some 3600000, 1500)], "#6366f1"⟩] 1 0
        (fun _ => ⟨0, 1, 8, 5⟩) 3600000 = "8:05" ∧
      tooltipFormatter [⟨"a", [(some 0, 1), (some 3600000, 1500)], "#6366f1"⟩] 1 0
        (fun _ => ⟨0, 1, 8, 5⟩) [⟨(3600000, 1500), "o", "a"⟩] =
          .content "1/1 8:05" [⟨"o", "a", "2k"⟩] ∧
      formatShort ⟨0, 1, 8, 5⟩ = "8:05" ∧
      tooltipFormatter [⟨"a", [(some 0, 1), (some 3600000, 1500)], "#6366f1"⟩] 1 0
        (fun _ => ⟨0, 1, 8, 5⟩) [⟨(3600000, 1500), "o", "a"⟩] ≠
          .content (formatShort ⟨0, 1, 8, 5⟩) [⟨"o", "a", "2k"⟩] := by
  have hs : spanExceedsDay [⟨"a", [(some 0, 1), (some 3600000, 1500)], "#6366f1"⟩] 1 0 =
      false := by
    rw [spanExceedsDay_of_range _ 1 0 0 3600000 (by simp [allTimes]) (by simp [allTimes])
      (by simp [allTimes])]
    decide
  refine ⟨hs, ?_, by decide, by decide, by decide⟩
  simp only [axisLabelFormatter, hs]
  decide

/-- C11 (amended): the tooltip's time label does not follow the span rule. For every
series set, every selected window and every non-empty `params`, it is the long label
(month/day plus hour:minute) of the first hovered point, a string different from the
short label, whether the merged range exceeds 24 hours or not; the rows below it are one
per element of `params`; for empty `params` the tooltip is the empty string. -/
theorem tooltip_time_always_long (series : List Series) (selectedHours now : Int)
    (localTime : Int → LocalTime) (p : TooltipParam) (ps : List TooltipParam) :
    (∃ lines, tooltipFormatter series selectedHours now localTime (p :: ps) =
        .content (formatLong (localTime p.value.1)) lines ∧
        lines.length = (p :: ps).length) ∧
      formatLong (localTime p.value.1) ≠ formatShort (localTime p.value.1) ∧
      (∀ lines, tooltipFormatter series selectedHours now localTime (p :: ps) ≠
        .content (formatShort (localTime p.value.1)) lines) ∧
      tooltipFormatter series selectedHours now localTime [] = .empty := by
  refine ⟨⟨_, tooltipFormatter_cons series selectedHours now localTime p ps, by simp⟩,
    formatLong_ne_formatShort _, ?_, rfl⟩
  intro lines h
  rw [tooltipFormatter_cons] at h
  injection h with h1 _
  exact formatLong_ne_formatShort _ h1

end TikTokMonitor
